import Mathlib

/-!
# webify: header logging policy, log levels, echo, file-server routing, cache control

A shallow embedding of `main.go` of the `webify` static file server, and the
properties of its request-handling pipeline.

Conventions of the embedding.

* Go strings are Lean `String`s (sequences of Unicode code points).
* A Go `map[string][]string` (`http.Header`) is the list of its entries in the
  order in which a `range` loop visits them.
* Mutable objects (`http.ResponseWriter`, `chi.Router`) are passed as explicit
  state: an operation takes the state before and returns the state after.
* A Go `panic` is a value of `Option String` next to the state reached.
-/

namespace Webify

/-! ## Strings (`strings` package) -/

/-- `unicode.ToLower` on one rune.  For the ASCII range the mapping is the one
the standard library hard-codes (`'A'..'Z'` shifted by `'a' - 'A'`, everything
else unchanged); for a rune above `unicode.MaxASCII` the library consults its
case tables, which are taken here as the parameter `u`. -/
def unicodeToLower (u : Char → Char) (r : Char) : Char :=
  if r.toNat ≤ 127 then
    if 'A'.toNat ≤ r.toNat ∧ r.toNat ≤ 'Z'.toNat then Char.ofNat (r.toNat + 32) else r
  else u r

/-- `strings.ToLower`: every rune of the string mapped to lower case. -/
def ToLower (u : Char → Char) (s : String) : String :=
  String.mk (s.data.map (unicodeToLower u))

/-- `strings.Join(elems, sep)`. -/
def Join (elems : List String) (sep : String) : String :=
  sep.intercalate elems

/-- `strings.ContainsAny(s, chars)`: some code point of `chars` occurs in `s`. -/
def ContainsAny (s chars : String) : Bool :=
  s.data.any (fun c => chars.data.contains c)

/-- `slices.Contains` on a slice of strings. -/
def slicesContains (xs : List String) (x : String) : Bool :=
  xs.contains x

/-! ## Structured log attributes (`log/slog`) -/

mutual
/-- The two kinds of `slog.Value` the program builds. -/
inductive Value where
  | StringValue (s : String)
  | GroupValue (as : List Attr)
/-- `slog.Attr`: a key and a value. -/
inductive Attr where
  | mk (Key : String) (Value : Value)
end

/-- The key of an attribute. -/
def Attr.Key : Attr → String
  | .mk k _ => k

/-- The value of an attribute. -/
def Attr.Value : Attr → Value
  | .mk _ v => v

/-- `slog.String(key, value)`. -/
def slogString (key value : String) : Attr :=
  .mk key (.StringValue value)

/-! ## Requests -/

/-- A byte of a message body. -/
abbrev Byte := Fin 256

/-- `http.Header`: the entries of the map, in iteration order. -/
abbrev Header := List (String × List String)

/-- An `io.Reader` seen through successive `Read` calls: it hands out chunks of
bytes and finally reports end of file or an error. -/
inductive Reader where
  | eof
  | fail (err : String)
  | chunk (bs : List Byte) (rest : Reader)

/-- The parts of `*http.Request` the program looks at. -/
structure Request where
  Method : String
  Path : String
  Header : Header
  Body : Reader

/-! ## Header policy -/

/-- `getIgnoreHeaders`: headers not printed since the log format handles them. -/
def getIgnoreHeaders : List String :=
  ["referer", "user-agent"]

/-- `getObfuscateHeaders`: headers whose values are obfuscated in the logs. -/
def getObfuscateHeaders : List String :=
  ["authorization"]

/-- One iteration of the `range req.Header` loop of `LogExtraAttrs`. -/
def headerStep (u : Char → Char) (attr : List Attr) (e : String × List String) : List Attr :=
  let header := e.1
  let values := e.2
  let lcHeader := ToLower u header
  if !slicesContains getIgnoreHeaders lcHeader then
    if slicesContains getObfuscateHeaders lcHeader then
      attr ++ [slogString header "[REDACTED]"]
    else
      attr ++ [slogString header (Join values ",")]
  else attr

/-- The `range req.Header` loop of `LogExtraAttrs`, started from `attr := []`. -/
def headerAttrs (u : Char → Char) (h : Header) : List Attr :=
  h.foldl (headerStep u) []

/-- The `LogExtraAttrs` closure installed by `main`; `debug` is the `*debug`
flag the closure captures. -/
def LogExtraAttrs (u : Char → Char) (debug : Bool) (req : Request) (_reqBody : String)
    (_respStatus : Int) : List Attr :=
  if debug then
    [.mk "headers" (.GroupValue (headerAttrs u req.Header))]
  else
    []

/-! ## Log level -/

/-- `slog.LevelDebug`. -/
def LevelDebug : Int := -4

/-- `slog.LevelInfo`. -/
def LevelInfo : Int := 0

/-- `slog.LevelWarn`. -/
def LevelWarn : Int := 4

/-- `slog.LevelError`. -/
def LevelError : Int := 8

/-- A record handed to the default logger: level, message, key/value arguments. -/
structure LogRecord where
  level : Int
  msg : String
  args : List (String × String)
  deriving DecidableEq

/-- `getLevel` converts `logLevelStr` to a `slog.Level`.  The second component
is what the call emits on the default logger (the `slog.Warn` of the `default`
branch). -/
def getLevel (u : Char → Char) (logLevelStr : String) : Int × List LogRecord :=
  let s := ToLower u logLevelStr
  if s = "debug" then (LevelDebug, [])
  else if s = "info" then (LevelInfo, [])
  else if s = "warn" then (LevelWarn, [])
  else if s = "error" then (LevelError, [])
  else
    (LevelInfo,
      [⟨LevelWarn, "Invalid log level specified, defaulting to info", [("level", logLevelStr)]⟩])

/-! ## Response headers (`net/http`, `net/textproto`) -/

/-- `validHeaderFieldByte` of `net/textproto`: the token characters of RFC 7230,
given by code point: letters, digits and fifteen punctuation marks. -/
def validHeaderFieldByte (c : Char) : Bool :=
  c.isAlphanum || [33, 35, 36, 37, 38, 39, 42, 43, 45, 46, 94, 95, 96, 124, 126].contains c.toNat

/-- The canonicalising pass of `canonicalMIMEHeaderKey`: first letter and the
letter after each dash in upper case, every other letter in lower case. -/
def canonLoop : Bool → List Char → List Char
  | _, [] => []
  | upper, c :: cs =>
    let c1 :=
      if upper && c.isLower then Char.ofNat (c.toNat - 32)
      else if !upper && c.isUpper then Char.ofNat (c.toNat + 32)
      else c
    c1 :: canonLoop (c1 == '-') cs

/-- `textproto.CanonicalMIMEHeaderKey`: a key holding a byte that is not a token
character is returned unchanged, any other key is canonicalised. -/
def CanonicalMIMEHeaderKey (s : String) : String :=
  if s.data.all validHeaderFieldByte then String.mk (canonLoop true s.data) else s

/-- `Header.Set(key, value)`: the entry of the canonical key becomes the single
value `value`, replacing what was there. -/
def Header.Set (h : Header) (key value : String) : Header :=
  let k := CanonicalMIMEHeaderKey key
  if h.any (fun e => e.1 == k) then
    h.map (fun e => if e.1 = k then (k, [value]) else e)
  else
    h ++ [(k, [value])]

/-- The map lookup `h[key]`. -/
def Header.lookup (h : Header) (key : String) : Option (List String) :=
  (h.find? (fun e => e.1 == key)).map (fun e => e.2)

/-! ## Response writer -/

/-- The state of an `http.ResponseWriter`: its header map, the status code once
the header has been written, and the body bytes written so far. -/
structure ResponseWriter where
  header : Header
  status : Option Nat
  body : List Byte
  deriving DecidableEq

/-- `w.WriteHeader(code)`; a second call is superfluous and changes nothing. -/
def ResponseWriter.WriteHeader (w : ResponseWriter) (code : Nat) : ResponseWriter :=
  match w.status with
  | some _ => w
  | none => { w with status := some code }

/-- `w.Write(b)`; it first does `WriteHeader(http.StatusOK)` when no header has
been written yet. -/
def ResponseWriter.Write (w : ResponseWriter) (b : List Byte) : ResponseWriter :=
  let w1 := w.WriteHeader 200
  { w1 with body := w1.body ++ b }

/-- `w.Header().Set(key, value)`. -/
def ResponseWriter.SetHeader (w : ResponseWriter) (key value : String) : ResponseWriter :=
  { w with header := w.header.Set key value }

/-- `io.ReadAll`: the bytes read until end of file or the first error, and that
error (`none` for end of file). -/
def ReadAll : Reader → List Byte × Option String
  | .eof => ([], none)
  | .fail err => ([], some err)
  | .chunk bs rest => let (b, err) := ReadAll rest; (bs ++ b, err)

/-- `echoHandler` simply repeats the body from the request in a response. -/
def echoHandler (w : ResponseWriter) (r : Request) : ResponseWriter :=
  let body := (ReadAll r.Body).1
  let w := w.WriteHeader 200
  w.Write body

/-- A handler as a state transformer; `σ` is whatever else the handler can
observe and change besides the response writer. -/
abbrev HandlerFunc (σ : Type) := σ → ResponseWriter → Request → σ × ResponseWriter

/-- `CacheControl(h)`. -/
def CacheControl {σ : Type} (h : HandlerFunc σ) : HandlerFunc σ :=
  fun s w r =>
    let w := w.SetHeader "Cache-Control" "max-age=31536000"
    h s w r

/-! ## Router setup -/

/-- `http.FileSystem`; the program only builds `http.Dir` values. -/
abbrev FileSystem := String

/-- The handlers the program mounts on routes, each named by the call that
builds it: `http.FileServer(root)`, `http.StripPrefix(pfx, h)`,
`http.RedirectHandler(url, code)` with their arguments, and `echoHandler`.  What
a standard-library handler answers to a request is the library's business: for
`RedirectHandler` the status is `code` and the `Location` is derived from `url`
by `http.Redirect`. -/
inductive Handler where
  | FileServer (root : FileSystem)
  | StripPrefix (pfx : String) (h : Handler)
  | RedirectHandler (url : String) (code : Nat)
  | echoHandler
  deriving DecidableEq

/-- The middlewares `main` installs.  The request logger carries the options it
is built with: level, the answer of `LogRequestBody`, and the `debug` flag its
`LogExtraAttrs` closure captures. -/
inductive Middleware where
  | RequestLogger (level : Int) (logRequestBody : Bool) (debug : Bool)
  | CacheControl
  | NoCache
  | CORS
  deriving DecidableEq

/-- A registration call on a `chi.Router`. -/
inductive RouterCall where
  | Use (m : Middleware)
  | Method (method : String) (pattern : String) (h : Handler)
  | HandleFunc (pattern : String) (h : Handler)
  deriving DecidableEq

/-- A `chi.Router`, as the registration calls made on it so far, oldest first. -/
abbrev Router := List RouterCall

/-- `chi.NewRouter()`. -/
def NewRouter : Router := []

/-- `r.Use(m)`. -/
def Router.Use (r : Router) (m : Middleware) : Router :=
  r ++ [.Use m]

/-- `r.HandleFunc(pattern, h)`: every method. -/
def Router.HandleFunc (r : Router) (pattern : String) (h : Handler) : Router :=
  r ++ [.HandleFunc pattern h]

/-- Where a setup function stops: the router as it is then, and the panic that
stopped it, if any. -/
structure Setup where
  router : Router
  panicked : Option String
  deriving DecidableEq

/-- Sequencing of setup steps: after a panic nothing more runs. -/
def Setup.andThen (s : Setup) (f : Router → Setup) : Setup :=
  match s.panicked with
  | some _ => s
  | none => f s.router

/-- The method-route registration of `chi.Mux` (`mx.handle`), the router `main`
builds: a pattern that is empty or whose first byte is not `/` is refused with a
panic and nothing is registered.  The further checks of the routing tree
concern the characters `{`, `}` and a `*` before the end of the pattern. -/
def Router.handle (r : Router) (method : String) (pattern : String) (h : Handler) : Setup :=
  if pattern.data.head? = some '/' then
    ⟨r ++ [.Method method pattern h], none⟩
  else
    ⟨r, some ("chi: routing pattern must begin with '/' in '" ++ pattern ++ "'")⟩

/-- `r.Get(pattern, h)`. -/
def Router.Get (r : Router) (pattern : String) (h : Handler) : Setup :=
  r.handle "GET" pattern h

/-- `r.Head(pattern, h)`. -/
def Router.Head (r : Router) (pattern : String) (h : Handler) : Setup :=
  r.handle "HEAD" pattern h

/-- `http.StatusMovedPermanently`. -/
def StatusMovedPermanently : Nat := 301

/-- The end of `FileServer`, from `path += "*"` on. -/
def FileServerRoutes (r : Router) (path : String) (fs : Handler) : Setup :=
  let path := path ++ "*"
  (r.Head path fs).andThen fun r =>
  r.Get path fs

/-- `FileServer` sets up a file server handler on the router.  The test
`path[len(path)-1] != '/'` reads the last byte of `path`; `'/'` is a one-byte
code point and never a byte of a longer one, so this is the last code point.
On the empty path the index is out of range and the Go runtime panics. -/
def FileServer (r : Router) (path : String) (root : FileSystem) : Setup :=
  if ContainsAny path "\x7b\x7d*" then
    ⟨r, some "FileServer does not permit URL parameters."⟩
  else
    let fs := Handler.StripPrefix path (Handler.FileServer root)
    if path ≠ "/" then
      match path.data.getLast? with
      | none => ⟨r, some "runtime error: index out of range [-1]"⟩
      | some c =>
        if c ≠ '/' then
          (r.Get path (Handler.RedirectHandler (path ++ "/") StatusMovedPermanently)).andThen
            fun r =>
          let path := path ++ "/"
          FileServerRoutes r path fs
        else
          FileServerRoutes r path fs
    else
      FileServerRoutes r path fs

/-- The command-line flags `main` reads while it sets up the router; `dir` is
the directory to serve after `main` has made it absolute. -/
structure Flags where
  cache : Bool
  debug : Bool
  echo : Bool
  silent : Bool
  level : String
  dir : String

/-- The router setup of `main`, from `chi.NewRouter()` to the registration of
the echo or file-server routes. -/
def mainRouter (u : Char → Char) (f : Flags) : Setup :=
  let r := NewRouter
  let r := if !f.silent then
      r.Use (.RequestLogger (getLevel u f.level).1 f.echo f.debug)
    else r
  let r := if f.cache then r.Use .CacheControl else r.Use .NoCache
  let r := r.Use .CORS
  if f.echo then
    ⟨r.HandleFunc "/*" .echoHandler, none⟩
  else
    FileServer r "/" f.dir

/-! ## Sample inputs -/

/-- A sample request: three headers, one of them `Authorization`. -/
def sampleRequest : Request :=
  { Method := "GET"
    Path := "/index.html"
    Header := [("Authorization", ["Bearer abc"]), ("Accept", ["text/html", "text/plain"]),
      ("User-Agent", ["curl/8"])]
    Body := .eof }

/-- The sample request with other Authorization values and another iteration
order of the header map. -/
def sampleRequest2 : Request :=
  { Method := "GET"
    Path := "/index.html"
    Header := [("Accept", ["text/html", "text/plain"]), ("User-Agent", ["curl/8"]),
      ("Authorization", ["Basic xyz", "Basic uvw"])]
    Body := .eof }

/-- A request whose body is two chunks and then end of file. -/
def helloRequest : Request :=
  { Method := "POST"
    Path := "/any/path"
    Header := []
    Body := .chunk [104, 101] (.chunk [108, 108, 111] .eof) }

/-- A request whose body yields one chunk and then a read error. -/
def brokenRequest : Request :=
  { Method := "POST"
    Path := "/any/path"
    Header := []
    Body := .chunk [104, 101] (.fail "unexpected EOF") }

/-- A response writer nothing has been written to. -/
def freshWriter : ResponseWriter :=
  { header := [], status := none, body := [] }

/-- A handler that counts its invocations in the outer state and leaves the
response writer alone. -/
def countingHandler : HandlerFunc Nat :=
  fun n w _ => (n + 1, w)

/-! ## The header loop, entry by entry -/

theorem headerStep_append (u : Char → Char) (acc : List Attr) (e : String × List String) :
    headerStep u acc e = acc ++ headerStep u [] e := by
  unfold headerStep
  by_cases h1 : slicesContains getIgnoreHeaders (ToLower u e.1) = true
  · simp [h1]
  · by_cases h2 : slicesContains getObfuscateHeaders (ToLower u e.1) = true
    · simp [h1, h2]
    · simp [h1, h2]

theorem foldl_headerStep (u : Char → Char) (h : Header) (acc : List Attr) :
    h.foldl (headerStep u) acc = acc ++ (h.map (headerStep u [])).flatten := by
  induction h generalizing acc with
  | nil => simp
  | cons e t ih =>
    rw [List.foldl_cons, ih, headerStep_append u acc e]
    simp [List.append_assoc]

theorem headerAttrs_eq (u : Char → Char) (h : Header) :
    headerAttrs u h = (h.map (headerStep u [])).flatten := by
  simp [headerAttrs, foldl_headerStep]

theorem mem_headerAttrs (u : Char → Char) (h : Header) (a : Attr) :
    a ∈ headerAttrs u h ↔ ∃ e ∈ h, a ∈ headerStep u [] e := by
  rw [headerAttrs_eq, List.mem_flatten]
  constructor
  · rintro ⟨l, hl, ha⟩
    obtain ⟨e, he, rfl⟩ := List.mem_map.1 hl
    exact ⟨e, he, ha⟩
  · rintro ⟨e, he, ha⟩
    exact ⟨_, List.mem_map.2 ⟨e, he, rfl⟩, ha⟩

theorem ignored_iff (s : String) :
    slicesContains getIgnoreHeaders s = true ↔ (s = "referer" ∨ s = "user-agent") := by
  simp [slicesContains, getIgnoreHeaders]

theorem obfuscated_iff (s : String) :
    slicesContains getObfuscateHeaders s = true ↔ s = "authorization" := by
  simp [slicesContains, getObfuscateHeaders]

/-- What one map entry contributes to the group. -/
theorem headerStep_nil (u : Char → Char) (k : String) (vs : List String) :
    headerStep u [] (k, vs) =
      if ToLower u k = "referer" ∨ ToLower u k = "user-agent" then []
      else if ToLower u k = "authorization" then [slogString k "[REDACTED]"]
      else [slogString k (Join vs ",")] := by
  unfold headerStep
  simp only []
  generalize ToLower u k = lc
  by_cases h1 : lc = "referer" ∨ lc = "user-agent"
  · have := (ignored_iff lc).2 h1
    rw [if_pos h1, this]
    simp
  · have h1b : slicesContains getIgnoreHeaders lc = false := by
      cases hc : slicesContains getIgnoreHeaders lc
      · rfl
      · exact absurd ((ignored_iff _).1 hc) h1
    rw [if_neg h1, h1b]
    by_cases h2 : lc = "authorization"
    · have := (obfuscated_iff lc).2 h2
      rw [if_pos h2, this]
      simp
    · have h2b : slicesContains getObfuscateHeaders lc = false := by
        cases hc : slicesContains getObfuscateHeaders lc
        · rfl
        · exact absurd ((obfuscated_iff _).1 hc) h2
      rw [if_neg h2, h2b]
      simp

/-- The names of the attributes are the names of the headers that are not
ignored, in iteration order. -/
theorem headerAttrs_keys (u : Char → Char) (h : Header) :
    (headerAttrs u h).map Attr.Key =
      (h.map Prod.fst).filter
        (fun k => decide (¬ (ToLower u k = "referer" ∨ ToLower u k = "user-agent"))) := by
  rw [headerAttrs_eq]
  induction h with
  | nil => simp
  | cons e t ih =>
    obtain ⟨k, vs⟩ := e
    simp only [List.map_cons, List.flatten_cons, List.map_append, ih, headerStep_nil]
    by_cases h1 : ToLower u k = "referer" ∨ ToLower u k = "user-agent"
    · rw [List.filter_cons, if_pos h1, if_neg (by simp only [decide_eq_true_iff]; exact fun h => h h1)]
      rfl
    · rw [List.filter_cons, if_neg h1, if_pos (decide_eq_true h1)]
      by_cases h2 : ToLower u k = "authorization"
      · rw [if_pos h2]
        rfl
      · rw [if_neg h2]
        rfl

/-! ## Header policy: the claims -/

/-- C1: with debug enabled, every attribute of the logged "headers" group whose
name lower-cases to "authorization" has the value "[REDACTED]"; and two header
maps with the same names that agree on the values of every header whose name
does not lower-case to "authorization" yield the same set of header attributes. -/
theorem authorization_redacted (u : Char → Char) (req req2 : Request) (b b2 : String)
    (st st2 : Int) :
    ∃ g, LogExtraAttrs u true req b st = [Attr.mk "headers" (Value.GroupValue g)] ∧
      (∀ a ∈ g, ToLower u a.Key = "authorization" → a.Value = Value.StringValue "[REDACTED]") ∧
      ((∀ k, (∃ vs, (k, vs) ∈ req.Header) ↔ (∃ vs, (k, vs) ∈ req2.Header)) →
        (∀ k vs, ToLower u k ≠ "authorization" →
          ((k, vs) ∈ req.Header ↔ (k, vs) ∈ req2.Header)) →
        ∃ g2, LogExtraAttrs u true req2 b2 st2 = [Attr.mk "headers" (Value.GroupValue g2)] ∧
          ∀ a, a ∈ g ↔ a ∈ g2) := by
  refine ⟨headerAttrs u req.Header, by simp [LogExtraAttrs], ?_, ?_⟩
  · intro a ha hk
    obtain ⟨⟨k, vs⟩, -, hmem⟩ := (mem_headerAttrs u _ a).1 ha
    rw [headerStep_nil] at hmem
    by_cases h1 : ToLower u k = "referer" ∨ ToLower u k = "user-agent"
    · simp [h1] at hmem
    · by_cases h2 : ToLower u k = "authorization"
      · simp [h1, h2] at hmem
        subst hmem
        rfl
      · simp [h1, h2] at hmem
        subst hmem
        exact absurd hk h2
  · intro hkeys hvals
    refine ⟨headerAttrs u req2.Header, by simp [LogExtraAttrs], ?_⟩
    have key : ∀ (h1 h2 : Header),
        (∀ k, (∃ vs, (k, vs) ∈ h1) → (∃ vs, (k, vs) ∈ h2)) →
        (∀ k vs, ToLower u k ≠ "authorization" → (k, vs) ∈ h1 → (k, vs) ∈ h2) →
        ∀ a, a ∈ headerAttrs u h1 → a ∈ headerAttrs u h2 := by
      intro h1 h2 hk hv a ha
      obtain ⟨⟨k, vs⟩, he, hmem⟩ := (mem_headerAttrs u _ a).1 ha
      by_cases hauth : ToLower u k = "authorization"
      · obtain ⟨vs2, he2⟩ := hk k ⟨vs, he⟩
        refine (mem_headerAttrs u _ a).2 ⟨(k, vs2), he2, ?_⟩
        rw [headerStep_nil] at hmem ⊢
        simpa [hauth] using hmem
      · exact (mem_headerAttrs u _ a).2 ⟨(k, vs), hv k vs hauth he, hmem⟩
    intro a
    exact ⟨key _ _ (fun k => (hkeys k).1) (fun k vs hk => (hvals k vs hk).1) a,
      key _ _ (fun k => (hkeys k).2) (fun k vs hk => (hvals k vs hk).2) a⟩

/-- The group of `sampleRequest` shows the Authorization header redacted, and
`sampleRequest2`, which differs in the Authorization values only, has the same
attributes. -/
theorem authorization_redacted_witness :
    LogExtraAttrs id true sampleRequest "" 200 =
      [Attr.mk "headers" (Value.GroupValue
        [slogString "Authorization" "[REDACTED]", slogString "Accept" "text/html,text/plain"])] ∧
    ∃ g2, LogExtraAttrs id true sampleRequest2 "" 200 = [Attr.mk "headers" (Value.GroupValue g2)] ∧
      ∀ a, a ∈ [slogString "Authorization" "[REDACTED]",
        slogString "Accept" "text/html,text/plain"] ↔ a ∈ g2 := by
  have hg0 : LogExtraAttrs id true sampleRequest "" 200 =
      [Attr.mk "headers" (Value.GroupValue
        [slogString "Authorization" "[REDACTED]", slogString "Accept" "text/html,text/plain"])] :=
    rfl
  refine ⟨hg0, ?_⟩
  obtain ⟨g, hg, -, hni⟩ := authorization_redacted id sampleRequest sampleRequest2 "" "" 200 200
  rw [hg0] at hg
  injection hg with hg
  injection hg with _ hg
  injection hg with hg
  subst hg
  apply hni
  · intro k
    simp only [sampleRequest, sampleRequest2, List.mem_cons, Prod.mk.injEq, List.mem_singleton,
      List.not_mem_nil, or_false]
    constructor
    · rintro ⟨vs, h | h | h⟩
      · exact ⟨_, Or.inr (Or.inr ⟨h.1, rfl⟩)⟩
      · exact ⟨_, Or.inl ⟨h.1, rfl⟩⟩
      · exact ⟨_, Or.inr (Or.inl ⟨h.1, rfl⟩)⟩
    · rintro ⟨vs, h | h | h⟩
      · exact ⟨_, Or.inr (Or.inl ⟨h.1, rfl⟩)⟩
      · exact ⟨_, Or.inr (Or.inr ⟨h.1, rfl⟩)⟩
      · exact ⟨_, Or.inl ⟨h.1, rfl⟩⟩
  · intro k vs hk
    simp only [sampleRequest, sampleRequest2, List.mem_cons, Prod.mk.injEq, List.mem_singleton,
      List.not_mem_nil, or_false]
    constructor
    · rintro (h | h | h)
      · exact absurd (by rw [h.1]; decide) hk
      · exact Or.inl h
      · exact Or.inr (Or.inl h)
    · rintro (h | h | h)
      · exact Or.inr (Or.inl h)
      · exact Or.inr (Or.inr h)
      · exact absurd (by rw [h.1]; decide) hk

/-- C2: with debug enabled and a header map (its names pairwise distinct), the
logged "headers" group holds exactly one attribute for each header name whose
lower-cased form is neither "referer" nor "user-agent", none for a name whose
lower-cased form is one of the two; each attribute keeps the header's original
name, and unless the name lower-cases to "authorization" its value is the
header's values joined with ",". -/
theorem headers_group_contents (u : Char → Char) (req : Request) (b : String) (st : Int)
    (hmap : (req.Header.map Prod.fst).Nodup) :
    ∃ g, LogExtraAttrs u true req b st = [Attr.mk "headers" (Value.GroupValue g)] ∧
      g.map Attr.Key = (req.Header.map Prod.fst).filter
        (fun k => decide (¬ (ToLower u k = "referer" ∨ ToLower u k = "user-agent"))) ∧
      (∀ k vs, (k, vs) ∈ req.Header →
        ¬ (ToLower u k = "referer" ∨ ToLower u k = "user-agent") →
          List.countP (fun a => a.Key == k) g = 1 ∧
          (ToLower u k ≠ "authorization" → slogString k (Join vs ",") ∈ g)) ∧
      (∀ a ∈ g, ¬ (ToLower u a.Key = "referer" ∨ ToLower u a.Key = "user-agent") ∧
        ∃ vs, (a.Key, vs) ∈ req.Header ∧
          (ToLower u a.Key ≠ "authorization" → a.Value = Value.StringValue (Join vs ","))) := by
  refine ⟨headerAttrs u req.Header, by simp [LogExtraAttrs], headerAttrs_keys u _, ?_, ?_⟩
  · intro k vs hk hign
    constructor
    · have hc : List.countP (fun a => a.Key == k) (headerAttrs u req.Header) =
          List.count k ((headerAttrs u req.Header).map Attr.Key) := by
        rw [List.count, List.countP_map]
        rfl
      rw [hc, headerAttrs_keys]
      apply List.count_eq_one_of_mem (hmap.filter _)
      rw [List.mem_filter]
      exact ⟨List.mem_map.2 ⟨(k, vs), hk, rfl⟩, by simpa using hign⟩
    · intro hauth
      refine (mem_headerAttrs u _ _).2 ⟨(k, vs), hk, ?_⟩
      rw [headerStep_nil]
      simp [hign, hauth]
  · intro a ha
    obtain ⟨⟨k, vs⟩, he, hmem⟩ := (mem_headerAttrs u _ a).1 ha
    rw [headerStep_nil] at hmem
    by_cases h1 : ToLower u k = "referer" ∨ ToLower u k = "user-agent"
    · simp [h1] at hmem
    · by_cases h2 : ToLower u k = "authorization"
      · simp [h1, h2] at hmem
        subst hmem
        exact ⟨h1, vs, he, fun h => absurd h2 h⟩
      · simp [h1, h2] at hmem
        subst hmem
        exact ⟨h1, vs, he, fun _ => rfl⟩

/-- The header map of `sampleRequest` has pairwise distinct names, and its
group is as `headers_group_contents` says. -/
theorem headers_group_contents_witness :
    (sampleRequest.Header.map Prod.fst).Nodup ∧
    ∃ g, LogExtraAttrs id true sampleRequest "" 200 = [Attr.mk "headers" (Value.GroupValue g)] ∧
      g.map Attr.Key = ["Authorization", "Accept"] ∧
      slogString "Accept" "text/html,text/plain" ∈ g := by
  have hnd : (sampleRequest.Header.map Prod.fst).Nodup := by decide
  refine ⟨hnd, ?_⟩
  obtain ⟨g, hg, hkeys, hin, -⟩ := headers_group_contents id sampleRequest "" 200 hnd
  refine ⟨g, hg, ?_, ?_⟩
  · rw [hkeys]
    decide
  · exact (hin "Accept" ["text/html", "text/plain"] (by simp [sampleRequest]) (by decide)).2
      (by decide)

/-- C3: with debug disabled, the extra log attributes are the empty list, for
every request, request body text and response status. -/
theorem no_extra_attrs_without_debug (u : Char → Char) (req : Request) (reqBody : String)
    (respStatus : Int) :
    LogExtraAttrs u false req reqBody respStatus = [] := by
  simp [LogExtraAttrs]

/-! ## Log level: the claim -/

theorem ToLower_DEBUG (u : Char → Char) : ToLower u "DEBUG" = "debug" := by
  simp [ToLower, unicodeToLower]

theorem ToLower_empty (u : Char → Char) : ToLower u "" = "" := by
  simp [ToLower]

theorem ToLower_spaced (u : Char → Char) : ToLower u " debug " = " debug " := by
  simp [ToLower, unicodeToLower]

/-- C4: `getLevel` is total; its level is debug, info, warn or error when the
lower-cased argument is exactly "debug", "info", "warn" or "error", and info
for every other string; "DEBUG" gives debug, the empty string and a name with
surrounding whitespace give info. -/
theorem getLevel_spec (u : Char → Char) (s : String) :
    (ToLower u s = "debug" → (getLevel u s).1 = LevelDebug) ∧
    (ToLower u s = "info" → (getLevel u s).1 = LevelInfo) ∧
    (ToLower u s = "warn" → (getLevel u s).1 = LevelWarn) ∧
    (ToLower u s = "error" → (getLevel u s).1 = LevelError) ∧
    (ToLower u s ∉ ["debug", "info", "warn", "error"] → (getLevel u s).1 = LevelInfo) ∧
    (getLevel u "DEBUG").1 = LevelDebug ∧
    (getLevel u "").1 = LevelInfo ∧
    (getLevel u " debug ").1 = LevelInfo := by
  refine ⟨?_, ?_, ?_, ?_, ?_, ?_, ?_, ?_⟩
  · intro h
    simp [getLevel, h]
  · intro h
    simp [getLevel, h]
  · intro h
    simp [getLevel, h]
  · intro h
    simp [getLevel, h]
  · intro h
    simp only [List.mem_cons, List.mem_singleton, not_or, List.not_mem_nil, or_false] at h
    obtain ⟨h1, h2, h3, h4⟩ := h
    simp [getLevel, h1, h2, h3, h4]
  · simp [getLevel, ToLower_DEBUG]
  · simp [getLevel, ToLower_empty]
  · simp [getLevel, ToLower_spaced]

/-! ## Echo: the claims -/

theorem echoHandler_fresh (w : ResponseWriter) (r : Request) (hfresh : w.status = none) :
    echoHandler w r =
      { header := w.header, status := some 200, body := w.body ++ (ReadAll r.Body).1 } := by
  obtain ⟨hd, stt, bd⟩ := w
  simp only at hfresh
  subst hfresh
  rfl

/-- C5: for every request whose body is read completely as the bytes `b`, on a
response writer nothing has been written to, `echoHandler` answers with status
200 and the response body exactly `b`, and leaves the response headers as they
were. -/
theorem echoHandler_echoes (w : ResponseWriter) (r : Request) (b : List Byte)
    (hfresh : w.status = none) (hbody : w.body = []) (hread : ReadAll r.Body = (b, none)) :
    (echoHandler w r).status = some 200 ∧ (echoHandler w r).body = b ∧
      (echoHandler w r).header = w.header := by
  rw [echoHandler_fresh w r hfresh, hread, hbody]
  simp

/-- The body `he`, `llo` of `helloRequest` comes back as `hello` with status 200. -/
theorem echoHandler_echoes_witness :
    ReadAll helloRequest.Body = ([104, 101, 108, 108, 111], none) ∧
    (echoHandler freshWriter helloRequest).status = some 200 ∧
    (echoHandler freshWriter helloRequest).body = [104, 101, 108, 108, 111] ∧
    (echoHandler freshWriter helloRequest).header = [] :=
  ⟨by decide, echoHandler_echoes freshWriter helloRequest [104, 101, 108, 108, 111] rfl rfl
    (by decide)⟩

/-- C6 as stated fails: the body of `brokenRequest` cannot be read to the end,
and `echoHandler` still answers 200, which is no 4xx or 5xx status. -/
theorem echoHandler_read_error_not_surfaced :
    ¬ (∀ (w : ResponseWriter) (r : Request), w.status = none → (ReadAll r.Body).2 ≠ none →
        ∃ c, (echoHandler w r).status = some c ∧ 400 ≤ c ∧ c ≤ 599) := by
  intro h
  obtain ⟨c, hc, h400, -⟩ := h freshWriter brokenRequest rfl (by decide)
  have h200 : (echoHandler freshWriter brokenRequest).status = some 200 := by decide
  rw [h200] at hc
  injection hc with hc
  omega

/-- C6, amended: when reading the request body fails with error `e` after the
bytes `b`, `echoHandler` drops the error and answers with status 200 and the
body `b`. -/
theorem echoHandler_read_error (w : ResponseWriter) (r : Request) (b : List Byte) (e : String)
    (hfresh : w.status = none) (hbody : w.body = []) (hread : ReadAll r.Body = (b, some e)) :
    (echoHandler w r).status = some 200 ∧ (echoHandler w r).body = b ∧
      (echoHandler w r).header = w.header := by
  rw [echoHandler_fresh w r hfresh, hread, hbody]
  simp

/-- The read of `brokenRequest` fails after `he`; the answer is 200 with body `he`. -/
theorem echoHandler_read_error_witness :
    ReadAll brokenRequest.Body = ([104, 101], some "unexpected EOF") ∧
    (echoHandler freshWriter brokenRequest).status = some 200 ∧
    (echoHandler freshWriter brokenRequest).body = [104, 101] ∧
    (echoHandler freshWriter brokenRequest).header = [] :=
  ⟨by decide, echoHandler_read_error freshWriter brokenRequest [104, 101] "unexpected EOF"
    rfl rfl (by decide)⟩

/-! ## File server routes: the claims -/

theorem ContainsAny_params (path : String) :
    ContainsAny path "\x7b\x7d*" = true ↔ ∃ c ∈ path.data, c = '{' ∨ c = '}' ∨ c = '*' := by
  have hd : ("\x7b\x7d*" : String).data = ['{', '}', '*'] := rfl
  simp [ContainsAny, hd, List.any_eq_true]

theorem head_append_of_head (p s : String) (c : Char) (h : p.data.head? = some c) :
    (p ++ s).data.head? = some c := by
  obtain ⟨l⟩ := p
  cases l with
  | nil => simp at h
  | cons a t =>
    rw [String.data_append]
    simpa using h

/-- A pattern beginning with `/` is registered. -/
theorem handle_of_slash (r : Router) (method pattern : String) (h : Handler)
    (hs : pattern.data.head? = some '/') :
    r.handle method pattern h = ⟨r ++ [.Method method pattern h], none⟩ := by
  simp [Router.handle, hs]

/-- The setup stops in `handle` with a message of the router, or not at all. -/
theorem handle_panicked_ne (r : Router) (method pattern : String) (h : Handler) :
    (r.handle method pattern h).panicked ≠
      some "FileServer does not permit URL parameters." := by
  unfold Router.handle
  by_cases hs : pattern.data.head? = some '/'
  · simp [hs]
  · rw [if_neg hs]
    intro heq
    have hc := head_append_of_head _ "'" 'c'
      (head_append_of_head "chi: routing pattern must begin with '/' in '" pattern 'c' rfl)
    rw [Option.some.inj heq] at hc
    exact absurd hc (by decide)

theorem andThen_panicked_ne (s : Setup) (f : Router → Setup) (m : String)
    (hs : s.panicked ≠ some m) (hf : ∀ r, (f r).panicked ≠ some m) :
    (s.andThen f).panicked ≠ some m := by
  unfold Setup.andThen
  cases hp : s.panicked with
  | none => exact hf _
  | some e =>
    simp only []
    rw [hp]
    rw [hp] at hs
    exact hs

theorem FileServerRoutes_panicked_ne (r : Router) (path : String) (fs : Handler) :
    (FileServerRoutes r path fs).panicked ≠
      some "FileServer does not permit URL parameters." :=
  andThen_panicked_ne _ _ _ (handle_panicked_ne _ _ _ _) (fun _ => handle_panicked_ne _ _ _ _)

theorem FileServerRoutes_eq (r : Router) (path : String) (fs : Handler)
    (hs : path.data.head? = some '/') :
    FileServerRoutes r path fs =
      ⟨r ++ [.Method "HEAD" (path ++ "*") fs, .Method "GET" (path ++ "*") fs], none⟩ := by
  have hp := head_append_of_head path "*" '/' hs
  have hh := fun (r0 : Router) (m : String) => handle_of_slash r0 m (path ++ "*") fs hp
  simp [FileServerRoutes, Router.Head, Router.Get, hh, Setup.andThen]

theorem getLast_of_ne_empty (path : String) (hne : path ≠ "") :
    ∃ c, path.data.getLast? = some c := by
  obtain ⟨l⟩ := path
  cases l with
  | nil => exact absurd rfl hne
  | cons a t => exact ⟨(a :: t).getLast (by simp), List.getLast?_eq_getLast _ (by simp)⟩

/-- C7 as stated fails: the mount path `assets` is non-empty, has none of `{`,
`}`, `*` and does not end in `/`, and the router refuses the pattern `assets`:
the setup panics and no route is registered.  The mount path `x/` ends in `/`,
and the router refuses the pattern `x/*` in the same way. -/
theorem FileServer_relative_mount_path :
    ("assets" : String) ≠ "" ∧
    (∀ c ∈ ("assets" : String).data, c ≠ '{' ∧ c ≠ '}' ∧ c ≠ '*') ∧
    ("assets" : String).data.getLast? ≠ some '/' ∧
    FileServer NewRouter "assets" "/srv" =
      ⟨NewRouter, some "chi: routing pattern must begin with '/' in 'assets'"⟩ ∧
    ("x/" : String).data.getLast? = some '/' ∧
    FileServer NewRouter "x/" "/srv" =
      ⟨NewRouter, some "chi: routing pattern must begin with '/' in 'x/*'"⟩ := by
  decide

/-- C7, amended: for every mount path `p` that begins with `/` and contains none
of `{`, `}`, `*`: when `p` does not end in `/`, `FileServer` registers for GET on
exactly `p` the handler `http.RedirectHandler(p + "/", 301)`, then the
file-serving handler for HEAD and GET on `p/*`; when `p` ends in `/` it
registers no redirect route and the file-serving handler for HEAD and GET on
`p*`; in both cases the file-serving handler is
`http.StripPrefix(p, http.FileServer(root))`, and there is no panic. -/
theorem FileServer_routes (r : Router) (path : String) (root : FileSystem)
    (hslash : path.data.head? = some '/')
    (hchars : ∀ c ∈ path.data, c ≠ '{' ∧ c ≠ '}' ∧ c ≠ '*') :
    (path.data.getLast? ≠ some '/' →
      FileServer r path root =
        ⟨r ++ [.Method "GET" path (.RedirectHandler (path ++ "/") 301),
            .Method "HEAD" (path ++ "/*") (.StripPrefix path (.FileServer root)),
            .Method "GET" (path ++ "/*") (.StripPrefix path (.FileServer root))], none⟩) ∧
    (path.data.getLast? = some '/' →
      FileServer r path root =
        ⟨r ++ [.Method "HEAD" (path ++ "*") (.StripPrefix path (.FileServer root)),
            .Method "GET" (path ++ "*") (.StripPrefix path (.FileServer root))], none⟩) := by
  have hca : ¬ ContainsAny path "\x7b\x7d*" = true := by
    rw [ContainsAny_params]
    rintro ⟨c, hc, h⟩
    obtain ⟨h1, h2, h3⟩ := hchars c hc
    rcases h with h | h | h
    · exact h1 h
    · exact h2 h
    · exact h3 h
  have hne : path ≠ "" := by
    intro h
    subst h
    simp at hslash
  obtain ⟨c, hc⟩ := getLast_of_ne_empty path hne
  constructor
  · intro hlast
    have hroot : path ≠ "/" := by
      intro h
      subst h
      exact hlast rfl
    have hcne : c ≠ '/' := by
      intro h
      subst h
      exact hlast hc
    unfold FileServer
    rw [if_neg hca]
    have hh := fun (r0 : Router) (m : String) (h0 : Handler) =>
      handle_of_slash r0 m path h0 hslash
    have hr := fun (r0 : Router) (h0 : Handler) =>
      FileServerRoutes_eq r0 (path ++ "/") h0 (head_append_of_head path "/" '/' hslash)
    simp only [if_pos hroot, hc, if_pos hcne, Router.Get, hh, Setup.andThen, hr,
      StatusMovedPermanently, String.append_assoc]
    have hs : ("/" : String) ++ "*" = "/*" := rfl
    simp [hs]
  · intro hlast
    unfold FileServer
    rw [if_neg hca]
    by_cases hroot : path = "/"
    · simp only [hroot, ne_eq, not_true_eq_false, if_false]
      exact FileServerRoutes_eq _ _ _ rfl
    · have hcs : c = '/' := by
        rw [hc] at hlast
        exact Option.some.inj hlast
      subst hcs
      simp only [ne_eq, hroot, not_false_eq_true, if_true, hc, not_true_eq_false, if_false,
        FileServerRoutes_eq _ _ _ hslash]

/-- On `/assets` the redirect and the two `/assets/*` routes are registered; on
`/` only the two `/*` routes. -/
theorem FileServer_routes_witness :
    FileServer NewRouter "/assets" "/srv" =
      ⟨[.Method "GET" "/assets" (.RedirectHandler "/assets/" 301),
        .Method "HEAD" "/assets/*" (.StripPrefix "/assets" (.FileServer "/srv")),
        .Method "GET" "/assets/*" (.StripPrefix "/assets" (.FileServer "/srv"))], none⟩ ∧
    FileServer NewRouter "/" "/srv" =
      ⟨[.Method "HEAD" "/*" (.StripPrefix "/" (.FileServer "/srv")),
        .Method "GET" "/*" (.StripPrefix "/" (.FileServer "/srv"))], none⟩ :=
  ⟨(FileServer_routes NewRouter "/assets" "/srv" (by decide) (by decide)).1 (by decide),
   (FileServer_routes NewRouter "/" "/srv" (by decide) (by decide)).2 (by decide)⟩

/-- C8: `FileServer` panics with "FileServer does not permit URL parameters."
exactly when the mount path contains one of `{`, `}`, `*`, and when it does the
router is as it was before the call: no route has been registered. -/
theorem FileServer_panics_iff (r : Router) (path : String) (root : FileSystem) :
    ((FileServer r path root).panicked = some "FileServer does not permit URL parameters." ↔
      ∃ c ∈ path.data, c = '{' ∨ c = '}' ∨ c = '*') ∧
    ((FileServer r path root).panicked = some "FileServer does not permit URL parameters." →
      (FileServer r path root).router = r) := by
  rw [← ContainsAny_params]
  by_cases hca : ContainsAny path "\x7b\x7d*" = true
  · simp [FileServer, hca]
  · have hnot : (FileServer r path root).panicked ≠
        some "FileServer does not permit URL parameters." := by
      unfold FileServer
      rw [if_neg hca]
      by_cases hroot : path = "/"
      · simp only [hroot, ne_eq, not_true_eq_false, if_false]
        exact FileServerRoutes_panicked_ne _ _ _
      · simp only [ne_eq, hroot, not_false_eq_true, if_true]
        cases hl : path.data.getLast? with
        | none =>
          simp only []
          decide
        | some c =>
          by_cases hc : c = '/'
          · simp only [hc, not_true_eq_false, if_false]
            exact FileServerRoutes_panicked_ne _ _ _
          · simp only [hc, not_false_eq_true, if_true]
            exact andThen_panicked_ne _ _ _ (handle_panicked_ne _ _ _ _)
              (fun _ => FileServerRoutes_panicked_ne _ _ _)
    exact ⟨⟨fun h => absurd h hnot, fun h => absurd h hca⟩, fun h => absurd h hnot⟩

/-! ## Cache control: the claim -/

theorem canonical_Cache_Control : CanonicalMIMEHeaderKey "Cache-Control" = "Cache-Control" := by
  decide

theorem lookup_replace_self (k : String) (vs : List String) (h : Header)
    (hany : h.any (fun e => e.1 == k) = true) :
    Header.lookup (h.map (fun e => if e.1 = k then (k, vs) else e)) k = some vs := by
  induction h with
  | nil => simp at hany
  | cons e t ih =>
    by_cases he : e.1 = k
    · simp [Header.lookup, List.find?, he]
    · have ht : t.any (fun e => e.1 == k) = true := by
        simpa [he] using hany
      have := ih ht
      simp only [Header.lookup] at this ⊢
      simp only [List.map_cons, if_neg he]
      rw [List.find?_cons_of_neg _ (by simpa using he)]
      exact this

theorem lookup_replace_other (k k2 : String) (vs : List String) (h : Header) (hk : k2 ≠ k) :
    Header.lookup (h.map (fun e => if e.1 = k then (k, vs) else e)) k2 = Header.lookup h k2 := by
  induction h with
  | nil => rfl
  | cons e t ih =>
    simp only [Header.lookup] at ih ⊢
    by_cases he : e.1 = k
    · have h2 : ¬ e.1 = k2 := fun h => hk (h ▸ he)
      simp only [List.map_cons, if_pos he]
      rw [List.find?_cons_of_neg _ (by simpa using fun h : k = k2 => hk h.symm),
        List.find?_cons_of_neg _ (by simpa using h2)]
      exact ih
    · simp only [List.map_cons, if_neg he]
      by_cases h2 : e.1 = k2
      · rw [List.find?_cons_of_pos _ (by simpa using h2),
          List.find?_cons_of_pos _ (by simpa using h2)]
      · rw [List.find?_cons_of_neg _ (by simpa using h2),
          List.find?_cons_of_neg _ (by simpa using h2)]
        exact ih

/-- After `Set`, the canonical key maps to the single value. -/
theorem lookup_Set_self (h : Header) (key value : String) :
    (h.Set key value).lookup (CanonicalMIMEHeaderKey key) = some [value] := by
  unfold Header.Set
  simp only []
  by_cases hany : h.any (fun e => e.1 == CanonicalMIMEHeaderKey key) = true
  · rw [if_pos hany]
    exact lookup_replace_self _ _ h hany
  · rw [if_neg hany]
    have hnone : h.find? (fun e => e.1 == CanonicalMIMEHeaderKey key) = none := by
      rw [List.find?_eq_none]
      intro e he hk
      exact hany (List.any_eq_true.2 ⟨e, he, hk⟩)
    simp [Header.lookup, List.find?_append, hnone]

/-- After `Set`, every key other than the canonical one maps to what it did. -/
theorem lookup_Set_other (h : Header) (key value k2 : String)
    (hk : k2 ≠ CanonicalMIMEHeaderKey key) :
    (h.Set key value).lookup k2 = h.lookup k2 := by
  unfold Header.Set
  simp only []
  by_cases hany : h.any (fun e => e.1 == CanonicalMIMEHeaderKey key) = true
  · rw [if_pos hany]
    exact lookup_replace_other _ _ _ h hk
  · rw [if_neg hany]
    have hsing : List.find? (fun e => e.1 == k2) [(CanonicalMIMEHeaderKey key, [value])] = none := by
      rw [List.find?_cons_of_neg _ (by simpa using fun h : CanonicalMIMEHeaderKey key = k2 => hk h.symm)]
      rfl
    simp only [Header.lookup, List.find?_append, hsing, Option.or_none]

/-- After `Set`, every entry under the canonical key holds the single value. -/
theorem entries_Set (h : Header) (key value : String) :
    ∀ e ∈ h.Set key value, e.1 = CanonicalMIMEHeaderKey key → e.2 = [value] := by
  intro e he hk
  unfold Header.Set at he
  simp only [] at he
  by_cases hany : h.any (fun e => e.1 == CanonicalMIMEHeaderKey key) = true
  · rw [if_pos hany] at he
    obtain ⟨e0, -, rfl⟩ := List.mem_map.1 he
    by_cases h0 : e0.1 = CanonicalMIMEHeaderKey key
    · simp [h0]
    · rw [if_neg h0] at hk
      exact absurd hk h0
  · rw [if_neg hany] at he
    rcases List.mem_append.1 he with h1 | h1
    · exact absurd (List.any_eq_true.2 ⟨e, h1, by simpa using hk⟩) hany
    · rw [List.mem_singleton] at h1
      rw [h1]

/-- `Set` keeps the entries under every other key, in their order. -/
theorem others_Set (h : Header) (key value : String) :
    (h.Set key value).filter (fun e => e.1 != CanonicalMIMEHeaderKey key) =
      h.filter (fun e => e.1 != CanonicalMIMEHeaderKey key) := by
  unfold Header.Set
  simp only []
  by_cases hany : h.any (fun e => e.1 == CanonicalMIMEHeaderKey key) = true
  · rw [if_pos hany]
    clear hany
    induction h with
    | nil => rfl
    | cons e t ih =>
      by_cases he : e.1 = CanonicalMIMEHeaderKey key
      · simp [he, List.filter_cons, ih]
      · simp [he, List.filter_cons, ih]
  · rw [if_neg hany]
    simp [List.filter_append, List.filter_cons]

/-- C9: `CacheControl(h)` sets the response header Cache-Control to the single
value "max-age=31536000", replacing what was there, leaves every other response
header, the status and the body as they were, and then runs `h` once on that
response writer and the same request; so when `h` does not touch Cache-Control
the response carries Cache-Control: max-age=31536000. -/
theorem CacheControl_spec {σ : Type} (h : HandlerFunc σ) (s : σ) (w : ResponseWriter)
    (r : Request) :
    ∃ w1 : ResponseWriter,
      CacheControl h s w r = h s w1 r ∧
      w1.header.lookup "Cache-Control" = some ["max-age=31536000"] ∧
      (∀ e ∈ w1.header, e.1 = "Cache-Control" → e.2 = ["max-age=31536000"]) ∧
      (∀ k, k ≠ "Cache-Control" → w1.header.lookup k = w.header.lookup k) ∧
      w1.header.filter (fun e => e.1 != "Cache-Control") =
        w.header.filter (fun e => e.1 != "Cache-Control") ∧
      w1.status = w.status ∧ w1.body = w.body ∧
      ((∀ s0 w0 r0, (h s0 w0 r0).2.header.lookup "Cache-Control" =
          w0.header.lookup "Cache-Control") →
        (CacheControl h s w r).2.header.lookup "Cache-Control" = some ["max-age=31536000"]) := by
  have h1 := lookup_Set_self w.header "Cache-Control" "max-age=31536000"
  have h2 := entries_Set w.header "Cache-Control" "max-age=31536000"
  have h3 := fun k => lookup_Set_other w.header "Cache-Control" "max-age=31536000" k
  have h4 := others_Set w.header "Cache-Control" "max-age=31536000"
  rw [canonical_Cache_Control] at h1 h2 h4
  simp only [canonical_Cache_Control] at h3
  refine ⟨w.SetHeader "Cache-Control" "max-age=31536000", rfl, h1, h2, h3, h4, rfl, rfl, ?_⟩
  intro hkeep
  show (h s (w.SetHeader "Cache-Control" "max-age=31536000") r).2.header.lookup "Cache-Control" = _
  rw [hkeep]
  exact h1

/-- On a response that already has two Cache-Control values, `CacheControl` of
the counting handler leaves the single value, and the handler has run once. -/
theorem CacheControl_spec_witness :
    CacheControl countingHandler 0
        { header := [("Cache-Control", ["no-cache", "private"]), ("Vary", ["Origin"])],
          status := none, body := [] } helloRequest =
      (1, { header := [("Cache-Control", ["max-age=31536000"]), ("Vary", ["Origin"])],
            status := none, body := [] }) ∧
    ∃ w1 : ResponseWriter,
      CacheControl countingHandler 0 freshWriter helloRequest = countingHandler 0 w1 helloRequest ∧
      w1.header.lookup "Cache-Control" = some ["max-age=31536000"] := by
  refine ⟨by decide, ?_⟩
  obtain ⟨w1, h1, h2, -⟩ := CacheControl_spec countingHandler 0 freshWriter helloRequest
  exact ⟨w1, h1, h2⟩

/-! ## Middleware order: the claim -/

/-- C10: for every combination of the flags, the router setup of `main` does not
panic and makes these calls in this order: `Use` of the request logger if and
only if silent is false; then `Use` of exactly one cache interceptor,
`CacheControl` when cache is true and `NoCache` when it is false; then `Use` of
the CORS interceptor; and only after them the route registrations: the echo
route when echo is true, the file-server routes otherwise. -/
theorem middleware_order (u : Char → Char) (f : Flags) :
    (mainRouter u f).panicked = none ∧
    (mainRouter u f).router =
      (((if f.silent then []
          else [Middleware.RequestLogger (getLevel u f.level).1 f.echo f.debug]) ++
        [if f.cache then Middleware.CacheControl else Middleware.NoCache] ++
        [Middleware.CORS]).map RouterCall.Use) ++
      (if f.echo then [RouterCall.HandleFunc "/*" Handler.echoHandler]
        else [RouterCall.Method "HEAD" "/*" (.StripPrefix "/" (.FileServer f.dir)),
          RouterCall.Method "GET" "/*" (.StripPrefix "/" (.FileServer f.dir))]) ∧
    (RouterCall.Use Middleware.CacheControl ∈ (mainRouter u f).router ↔ f.cache = true) ∧
    (RouterCall.Use Middleware.NoCache ∈ (mainRouter u f).router ↔ f.cache = false) ∧
    List.countP (fun c => c == RouterCall.Use Middleware.CacheControl ||
      c == RouterCall.Use Middleware.NoCache) (mainRouter u f).router = 1 := by
  have hfs : ∀ r : Router, FileServer r "/" f.dir =
      ⟨r ++ [RouterCall.Method "HEAD" "/*" (.StripPrefix "/" (.FileServer f.dir)),
        RouterCall.Method "GET" "/*" (.StripPrefix "/" (.FileServer f.dir))], none⟩ := by
    intro r
    have hca : ¬ ContainsAny "/" "\x7b\x7d*" = true := by decide
    unfold FileServer
    rw [if_neg hca]
    simp only [ne_eq, not_true_eq_false, if_false]
    exact FileServerRoutes_eq _ _ _ rfl
  obtain ⟨cache, debug, echo, silent, level, dir⟩ := f
  cases cache <;> cases echo <;> cases silent <;>
    simp [mainRouter, hfs, NewRouter, Router.Use, Router.HandleFunc, List.countP_cons]

end Webify
